import Mathlib

/-!
Shallow embedding of the core of the `machinery` distributed task queue
(files `v1/backends/async_result.go` and `v1/brokers/amqp.go`), together
with theorems settling the frozen claims about it.

Go conventions used throughout the embedding:
* a Go `error` value is `Option String` (`none` = nil error, `some msg` =
  non-nil error built from `msg`);
* a Go `[]reflect.Value` result that may be nil is `Option (List GoValue)`
  (`none` = nil slice, `some vs` = a non-nil slice, possibly empty);
* mutation of a struct through a pointer becomes explicit state passing;
* calls into the backend / transport (GetState, PurgeState, queue declare,
  publish) are recorded as explicit effect lists so the theorems can speak
  about which side effects a function performs.
-/

namespace Machinery

/-- A generic decoded JSON-ish value, standing in for the dynamic values
carried by task args and results (`TaskResult.Value` in Go).  Every claim
treats these values opaquely (they only flow through the abstract
`tasks.ReflectValue` decoder), so scalar kinds suffice. -/
inductive GoValue where
  | num (n : Int)
  | str (s : String)
  | boolean (b : Bool)
  deriving DecidableEq, Repr

/-- Modelled from the spec: `TaskState.State` ranges over the closed set
{PENDING, RECEIVED, STARTED, RETRY, SUCCESS, FAILURE} (§3 of the spec); the
`tasks` package defining these constants is not part of the given sources. -/
inductive TState where
  | pending
  | received
  | started
  | retry
  | success
  | failure
  deriving DecidableEq, Repr

/-- Modelled from the spec: a `{Type, Value}` result entry (§3). -/
structure TaskResult where
  type : String
  value : GoValue
  deriving DecidableEq, Repr

/-- Modelled from the spec: the persisted `TaskState` record keyed by
`TaskUUID`, with `Results` and `Error` (§3); the `tasks` package is not part
of the given sources. -/
structure TaskState where
  taskUUID : String
  state : TState
  results : List TaskResult
  error : String
  deriving DecidableEq, Repr

/-- Modelled from the spec: `IsCompleted() ≡ state ∈ {SUCCESS, FAILURE}` (§3). -/
def TaskState.IsCompleted (t : TaskState) : Bool :=
  t.state = TState.success || t.state = TState.failure

/-- Modelled from the spec: the state is SUCCESS. -/
def TaskState.IsSuccess (t : TaskState) : Bool :=
  t.state = TState.success

/-- Modelled from the spec: the state is FAILURE. -/
def TaskState.IsFailure (t : TaskState) : Bool :=
  t.state = TState.failure

/-- The result backend seen through the `backends.Interface` methods that
`AsyncResult` uses: `GetState` (which may fail) and the dynamic test whether
the backend is the AMQP backend (`*AMQPBackend` type assertion in Go). -/
structure Backend where
  isAMQP : Bool
  getState : String → Except String TaskState

/-- Embedding of `backends.AsyncResult`: the signature's UUID and the cached task state
(the `backend` pointer is passed separately, as `Option Backend`, `none`
standing for a nil backend). -/
structure AsyncResult where
  signatureUUID : String
  taskState : TaskState
  deriving DecidableEq, Repr

/-- Embedding of `AsyncResult.GetState` from `async_result.go`: if the cached state is
already completed it is returned as is and the backend is not contacted;
otherwise the backend is queried and, on a nil error, the cached state is
replaced.  Returns the updated handle together with the list of UUIDs for
which a backend `GetState` call was issued. -/
def AsyncResult.GetStateE (b : Backend) (r : AsyncResult) :
    AsyncResult × List String :=
  if r.taskState.IsCompleted then
    (r, [])
  else
    match b.getState r.signatureUUID with
    | Except.ok ts => ({ r with taskState := ts }, [r.signatureUUID])
    | Except.error _ => (r, [r.signatureUUID])

/-- The result-decoding loop of `AsyncResult.Touch`: `tasks.ReflectValue`
(abstracted as the parameter `rv`, since the `tasks` package is not among the
given sources) is applied to each `{Type, Value}` entry in order and the
first failure aborts the whole decode with that error. -/
def decodeResults (rv : String → GoValue → Except String GoValue) :
    List TaskResult → Except String (List GoValue)
  | [] => Except.ok []
  | t :: rest =>
    match rv t.type t.value with
    | Except.error e => Except.error e
    | Except.ok v =>
      match decodeResults rv rest with
      | Except.error e => Except.error e
      | Except.ok vs => Except.ok (v :: vs)

/-- The outcome of one `AsyncResult.Touch` call: the updated handle, the list
of backend `GetState` calls issued, the list of backend `PurgeState` calls
issued, and the Go return pair `([]reflect.Value, error)`. -/
structure TouchOut where
  result : AsyncResult
  fetched : List String
  purged : List String
  ret : Option (List GoValue) × Option String
  deriving Repr

/-- Embedding of `AsyncResult.Touch` from `async_result.go`: fail when the backend is nil;
otherwise run `GetState`, purge the state when the backend is the AMQP
backend and the (now cached) state is completed, then return the decoded
results on SUCCESS, the state's error on FAILURE, and `(nil, nil)` otherwise. -/
def AsyncResult.Touch (rv : String → GoValue → Except String GoValue)
    (b : Option Backend) (r : AsyncResult) : TouchOut :=
  match b with
  | none =>
    ⟨r, [], [], (none, some "Result backend not configured")⟩
  | some backend =>
    let fetchRes := r.GetStateE backend
    let r1 := fetchRes.1
    let purged :=
      if backend.isAMQP && r1.taskState.IsCompleted then
        [r1.taskState.taskUUID]
      else []
    if r1.taskState.IsSuccess then
      match decodeResults rv r1.taskState.results with
      | Except.error e => ⟨r1, fetchRes.2, purged, (none, some e)⟩
      | Except.ok vs => ⟨r1, fetchRes.2, purged, (some vs, none)⟩
    else if r1.taskState.IsFailure then
      ⟨r1, fetchRes.2, purged, (none, some r1.taskState.error)⟩
    else
      ⟨r1, fetchRes.2, purged, (none, none)⟩

/-- Embedding of `AsyncResult.Get` from `async_result.go`: loop calling `Touch`; after an
outcome of `(nil, nil)` sleep for `sleepDuration` and try again, otherwise
return `Touch`'s pair.  The Go loop is unbounded; `fuel` bounds the number of
`Touch` calls modelled, and `none` means the loop was still running (the Go
call would still be blocked) when the fuel ran out. -/
def AsyncResult.Get (rv : String → GoValue → Except String GoValue)
    (b : Option Backend) :
    Nat → AsyncResult → Option (AsyncResult × (Option (List GoValue) × Option String))
  | 0, _ => none
  | fuel + 1, r =>
    let t := r.Touch rv b
    match t.ret with
    | (none, none) => AsyncResult.Get rv b fuel t.result
    | _ => some (t.result, t.ret)

/-- Embedding of `AsyncResult.GetWithTimeout` from `async_result.go`: the same loop inside
a `select` that also watches a timer.  The parameter counts how many more
times the `default` branch (one `Touch`, then possibly a sleep) runs before
the timer's channel is taken: at `0` the function returns
`(nil, "Timeout reached")`. -/
def AsyncResult.GetWithTimeout (rv : String → GoValue → Except String GoValue)
    (b : Option Backend) :
    Nat → AsyncResult → AsyncResult × (Option (List GoValue) × Option String)
  | 0, r => (r, (none, some "Timeout reached"))
  | k + 1, r =>
    let t := r.Touch rv b
    match t.ret with
    | (none, none) => AsyncResult.GetWithTimeout rv b k t.result
    | _ => (t.result, t.ret)

/-- Embedding of `backends.ChainAsyncResult`: the ordered member handles. -/
structure ChainAsyncResult where
  asyncResults : List AsyncResult
  deriving Repr

/-- Embedding of `backends.ChordAsyncResult`: the group member handles plus the chord
callback handle. -/
structure ChordAsyncResult where
  groupAsyncResults : List AsyncResult
  chordAsyncResult : AsyncResult
  deriving Repr

/-- The member loop of `ChainAsyncResult.Get`: `results, err = member.Get(...)`,
returning `(nil, err)` at the first member whose `Get` yields a non-nil
error, and otherwise threading the member's results so the last member's
results are returned at the end.  `none` propagates a member whose `Get`
never terminates within the fuel. -/
def chainGetAux (rv : String → GoValue → Except String GoValue)
    (b : Option Backend) (fuel : Nat) :
    List AsyncResult → Option (List GoValue) →
    Option (Option (List GoValue) × Option String)
  | [], acc => some (acc, none)
  | r :: rest, _ =>
    match AsyncResult.Get rv b fuel r with
    | none => none
    | some (_, (_, some e)) => some (none, some e)
    | some (_, (res, none)) => chainGetAux rv b fuel rest res

/-- Embedding of `ChainAsyncResult.Get` from `async_result.go`: fail on a nil backend,
otherwise run the member loop starting from nil results. -/
def ChainAsyncResult.Get (rv : String → GoValue → Except String GoValue)
    (b : Option Backend) (fuel : Nat) (c : ChainAsyncResult) :
    Option (Option (List GoValue) × Option String) :=
  match b with
  | none => some (none, some "Result backend not configured")
  | some _ => chainGetAux rv b fuel c.asyncResults none

/-- The group loop of `ChordAsyncResult.Get`: `_, err = member.Get(...)`,
aborting with the first member's non-nil error (member results are
discarded). -/
def chordGroupAux (rv : String → GoValue → Except String GoValue)
    (b : Option Backend) (fuel : Nat) :
    List AsyncResult → Option (Option String)
  | [] => some none
  | r :: rest =>
    match AsyncResult.Get rv b fuel r with
    | none => none
    | some (_, (_, some e)) => some (some e)
    | some (_, (_, none)) => chordGroupAux rv b fuel rest

/-- Embedding of `ChordAsyncResult.Get` from `async_result.go`: fail on a nil backend,
await every group member in order returning `(nil, err)` at the first member
failure, then return the callback handle's `Get`. -/
def ChordAsyncResult.Get (rv : String → GoValue → Except String GoValue)
    (b : Option Backend) (fuel : Nat) (c : ChordAsyncResult) :
    Option (Option (List GoValue) × Option String) :=
  match b with
  | none => some (none, some "Result backend not configured")
  | some _ =>
    match chordGroupAux rv b fuel c.groupAsyncResults with
    | none => none
    | some (some e) => some (none, some e)
    | some none =>
      match AsyncResult.Get rv b fuel c.chordAsyncResult with
      | none => none
      | some (_, out) => some out

/-- The inner member loop shared by `ChainAsyncResult.GetWithTimeout` and
`ChordAsyncResult.GetWithTimeout`: `_, errcur := member.Touch()` for each
member in order, stopping at the first member whose `Touch` returns a
non-nil error.  Returns the members with their cached states updated by the
`Touch` calls that did run, and that first error if any. -/
def touchAll (rv : String → GoValue → Except String GoValue)
    (b : Option Backend) :
    List AsyncResult → List AsyncResult × Option String
  | [] => ([], none)
  | r :: rest =>
    let t := r.Touch rv b
    match t.ret.2 with
    | some e => (t.result :: rest, some e)
    | none =>
      let tailRes := touchAll rv b rest
      (t.result :: tailRes.1, tailRes.2)

/-- The body of `ChainAsyncResult.GetWithTimeout` from `async_result.go`.
`members` carries the current cached states of the chain's handles (Go
mutates them in place through pointers, and `lastResult` aliases the last
element), `errVar` is the current value of the function's `err` variable,
and the `Nat` counts how many more times the `default` branch of the
`select` runs before the timer fires.  When a member's `Touch` errors the
function returns `(nil, err)` — the stale `errVar`, not the member's error.
After the member loop, `results, err = lastResult.Touch()`: a non-nil error
or non-nil results are returned, otherwise the loop continues after a
sleep. -/
def chainGWTLoop (rv : String → GoValue → Except String GoValue)
    (b : Option Backend) :
    List AsyncResult → Option String → Nat →
    Option (List GoValue) × Option String
  | _, _, 0 => (none, some "Timeout reached")
  | members, errVar, k + 1 =>
    let inner := touchAll rv b members
    match inner.2 with
    | some _ => (none, errVar)
    | none =>
      match inner.1.getLast? with
      | none => (none, errVar)
      | some lastR =>
        let t := lastR.Touch rv b
        let members1 := inner.1.dropLast ++ [t.result]
        match t.ret with
        | (_, some e) => (none, some e)
        | (some vs, none) => (some vs, none)
        | (none, none) => chainGWTLoop rv b members1 none k

/-- Embedding of `ChainAsyncResult.GetWithTimeout` from `async_result.go`: fail on a nil
backend; `lastResult := asyncResults[len-1]` panics on an empty chain
(modelled as `none`); otherwise run the timer loop with `err` initially
nil. -/
def ChainAsyncResult.GetWithTimeout (rv : String → GoValue → Except String GoValue)
    (b : Option Backend) (c : ChainAsyncResult) (k : Nat) :
    Option (Option (List GoValue) × Option String) :=
  match b with
  | none => some (none, some "Result backend not configured")
  | some _ =>
    if c.asyncResults.isEmpty then none
    else some (chainGWTLoop rv b c.asyncResults none k)

/-- The body of `ChordAsyncResult.GetWithTimeout` from `async_result.go`.
Like the chain loop, but after touching every group member the chord
callback handle is touched: a non-nil error from the callback's `Touch`
returns `(nil, nil)` (the literal `return nil, nil` in the source), non-nil
results are returned with the (nil) `err`, and otherwise the loop continues.
A group member's `Touch` error returns `(nil, err)` — the stale `errVar`. -/
def chordGWTLoop (rv : String → GoValue → Except String GoValue)
    (b : Option Backend) :
    List AsyncResult → AsyncResult → Option String → Nat →
    Option (List GoValue) × Option String
  | _, _, _, 0 => (none, some "Timeout reached")
  | group, callback, errVar, k + 1 =>
    let inner := touchAll rv b group
    match inner.2 with
    | some _ => (none, errVar)
    | none =>
      let t := callback.Touch rv b
      match t.ret with
      | (_, some _) => (none, none)
      | (some vs, none) => (some vs, none)
      | (none, none) => chordGWTLoop rv b inner.1 t.result none k

/-- Embedding of `ChordAsyncResult.GetWithTimeout` from `async_result.go`: fail on a nil
backend, otherwise run the timer loop with `err` initially nil. -/
def ChordAsyncResult.GetWithTimeout (rv : String → GoValue → Except String GoValue)
    (b : Option Backend) (c : ChordAsyncResult) (k : Nat) :
    Option (Option (List GoValue) × Option String) :=
  match b with
  | none => some (none, some "Result backend not configured")
  | some _ => some (chordGWTLoop rv b c.groupAsyncResults c.chordAsyncResult none k)

/-! ## AMQP broker (`v1/brokers/amqp.go`) -/

/-- Modelled from the spec: the fields of `tasks.Signature` that the broker
reads (§3); the `tasks` package is not among the given sources.  `eta` is an
optional absolute UTC timestamp in nanoseconds (Go `time.Time`/`Duration`
are nanosecond counts). -/
structure Signature where
  uuid : String
  name : String
  routingKey : String
  eta : Option Int
  deriving DecidableEq, Repr

/-- The configuration fields of `config.Config` the AMQP broker reads. -/
structure Config where
  exchange : String
  exchangeType : String
  defaultQueue : String
  bindingKey : String
  deriving DecidableEq, Repr

/-- Modelled from the spec: `Broker.AdjustRoutingKey` (base broker, not among
the given sources) — the routing key "defaults to the configured default
queue's binding key" (§3). -/
def AdjustRoutingKey (cnf : Config) (sig : Signature) : Signature :=
  if sig.routingKey = "" then { sig with routingKey := cnf.bindingKey } else sig

/-- One ack/nack decision taken on a delivery, with the `multiple` and (for
nack) `requeue` flags as passed to the transport. -/
inductive AckAction where
  | ack (multiple : Bool)
  | nack (multiple requeue : Bool)
  deriving DecidableEq, Repr

/-- The observable outcome of `AMQPBroker.consumeOne`: the ack/nack actions
issued in order, the signature handed to `taskProcessor.Process` (if any),
and the returned Go error. -/
structure ConsumeOneOut where
  actions : List AckAction
  processed : Option Signature
  ret : Option String
  deriving DecidableEq, Repr

/-- Embedding of `AMQPBroker.consumeOne` from `amqp.go`.  `unmarshal` stands for
`json.Unmarshal` of the delivery body into a `Signature` (external),
`isTaskRegistered` for the base broker's registered-handler lookup, and
`processRet` for what `taskProcessor.Process` returns when invoked.  An
empty body is nacked (no requeue) with the "empty message" error; an
undecodable body is nacked (no requeue) with the decode error; an
unregistered task name is nacked **with** requeue and processing is skipped
with a nil error; otherwise the delivery is acked and `Process` is called. -/
def consumeOne (unmarshal : String → Except String Signature)
    (isTaskRegistered : String → Bool)
    (processRet : Signature → Option String)
    (body : String) : ConsumeOneOut :=
  if body.length = 0 then
    ⟨[AckAction.nack false false], none, some "Received an empty message"⟩
  else
    match unmarshal body with
    | Except.error e => ⟨[AckAction.nack false false], none, some e⟩
    | Except.ok signature =>
      if !isTaskRegistered signature.name then
        ⟨[AckAction.nack false true], none, none⟩
      else
        ⟨[AckAction.ack false], some signature, processRet signature⟩

/-- A queue declaration as performed by `Connect` on the delay path: the
queue name and the `amqp.Table` declare arguments from `AMQPBroker.delay`. -/
structure QueueDeclare where
  queueName : String
  deadLetterExchange : String
  deadLetterRoutingKey : String
  messageTTL : Int
  expires : Int
  deriving DecidableEq, Repr

/-- One `channel.Publish` call: target exchange, routing key, and the
serialized body. -/
structure PubEvent where
  exchange : String
  routingKey : String
  body : String
  deriving DecidableEq, Repr

/-- The transport oracles for one `Publish`/`delay` invocation: the outcome
of `Connect`, the outcome of `channel.Publish`, and the confirmation that
arrives on the confirms channel (`Ack` flag and `DeliveryTag`). -/
structure Transport where
  connectErr : Option String
  publishErr : Option String
  confAck : Bool
  confDeliveryTag : Nat
  deriving DecidableEq, Repr

/-- The observable outcome of `AMQPBroker.Publish` / `AMQPBroker.delay`:
delay-queue declarations performed, `channel.Publish` calls performed,
whether a value was received from the confirms channel before returning, and
the returned Go error. -/
structure PublishOut where
  declares : List QueueDeclare
  publishes : List PubEvent
  confirmAwaited : Bool
  ret : Option String
  deriving DecidableEq, Repr

/-- Embedding of `AMQPBroker.delay` from `amqp.go`: reject `delayMs ≤ 0` with the
"Cannot delay task by 0ms" error; otherwise declare (via `Connect`) a queue
named by the signature's UUID with dead-letter exchange/routing-key pointing
at the configured exchange and binding key, `x-message-ttl = delayMs` and
`x-expires = delayMs + 3000`, then publish the serialized signature to the
configured exchange with the queue's name as routing key.  No value is ever
read from a confirms channel.  `marshal` stands for `json.Marshal` of the
signature. -/
def AMQPBroker.delay (cnf : Config) (marshal : Signature → String)
    (tr : Transport) (signature : Signature) (delayMs : Int) : PublishOut :=
  if delayMs ≤ 0 then
    ⟨[], [], false, some "Cannot delay task by 0ms"⟩
  else
    let message := marshal signature
    let queueName := signature.uuid
    let declare : QueueDeclare :=
      ⟨queueName, cnf.exchange, cnf.bindingKey, delayMs, delayMs + 3000⟩
    match tr.connectErr with
    | some e => ⟨[], [], false, some e⟩
    | none =>
      match tr.publishErr with
      | some e => ⟨[declare], [], false, some e⟩
      | none =>
        ⟨[declare], [⟨cnf.exchange, queueName, message⟩], false, none⟩

/-- The non-delayed tail of `AMQPBroker.Publish` from `amqp.go`: connect,
publish the serialized signature to the configured exchange with the
signature's routing key, then block on the confirms channel; a confirmation
with `Ack` set yields a nil error, otherwise the "Failed delivery of
delivery tag" error carrying the tag. -/
def AMQPBroker.publishNow (cnf : Config) (marshal : Signature → String)
    (tr : Transport) (signature : Signature) : PublishOut :=
  let message := marshal signature
  match tr.connectErr with
  | some e => ⟨[], [], false, some e⟩
  | none =>
    match tr.publishErr with
    | some e => ⟨[], [], false, some e⟩
    | none =>
      let ev : PubEvent := ⟨cnf.exchange, signature.routingKey, message⟩
      if tr.confAck then
        ⟨[], [ev], true, none⟩
      else
        ⟨[], [ev], true,
          some ("Failed delivery of delivery tag: " ++ toString tr.confDeliveryTag)⟩

/-- Embedding of `AMQPBroker.Publish` from `amqp.go`: adjust the routing key; when the
signature's ETA is set and strictly in the future, compute
`delayMs = (ETA - now) / time.Millisecond` (Go integer division of the
nanosecond duration, truncating sub-millisecond remainders) and delegate to
`delay`; otherwise publish immediately and await the confirmation.  `now` is
the current UTC time in nanoseconds. -/
def AMQPBroker.Publish (cnf : Config) (marshal : Signature → String)
    (tr : Transport) (now : Int) (signature : Signature) : PublishOut :=
  let signature := AdjustRoutingKey cnf signature
  match signature.eta with
  | some eta =>
    if now < eta then
      AMQPBroker.delay cnf marshal tr signature ((eta - now) / 1000000)
    else
      AMQPBroker.publishNow cnf marshal tr signature
  | none => AMQPBroker.publishNow cnf marshal tr signature

/-! ## Worker pool of `AMQPBroker.consume` -/

/-- The state of the worker-pool machinery in `AMQPBroker.consume`:
`toAdd` tokens the initializer goroutine has yet to push into the `pool`
channel, `pool` tokens currently buffered in the channel, and `inFlight`
task-processing goroutines dispatched but not yet completed. -/
structure PoolState where
  toAdd : Nat
  pool : Nat
  inFlight : Nat
  deriving DecidableEq, Repr

/-- The atomic steps of `AMQPBroker.consume` with concurrency `c`, as they
affect the pool state: the initializer pushes one of its remaining tokens
into the channel (whose buffer size is `c`); a delivery is dispatched, first
taking a token from the pool when `c > 0` and taking none when `c = 0`; a
task goroutine completes, giving its token back when `c > 0`. -/
inductive PoolStep (c : Nat) : PoolState → PoolState → Prop
  | fill (a p f : Nat) (hp : p < c) :
      PoolStep c ⟨a + 1, p, f⟩ ⟨a, p + 1, f⟩
  | dispatchGated (a p f : Nat) (hc : 0 < c) :
      PoolStep c ⟨a, p + 1, f⟩ ⟨a, p, f + 1⟩
  | dispatchFree (a p f : Nat) (hc : c = 0) :
      PoolStep c ⟨a, p, f⟩ ⟨a, p, f + 1⟩
  | complete (a p f : Nat) (hc : 0 < c) :
      PoolStep c ⟨a, p, f + 1⟩ ⟨a, p + 1, f⟩
  | completeFree (a p f : Nat) (hc : c = 0) :
      PoolStep c ⟨a, p, f + 1⟩ ⟨a, p, f⟩

/-- The initial pool state of a consume loop with concurrency `c`: the
initializer still has all `c` tokens to add, the channel is empty, nothing
is in flight. -/
def poolInit (c : Nat) : PoolState := ⟨c, 0, 0⟩

/-- The pool states reachable in a consume loop with concurrency `c`. -/
def PoolReachable (c : Nat) (s : PoolState) : Prop :=
  Relation.ReflTransGen (PoolStep c) (poolInit c) s

/-! ## Helper lemmas -/

theorem GetStateE_completed (b : Backend) (r : AsyncResult)
    (h : r.taskState.IsCompleted = true) : r.GetStateE b = (r, []) := by
  simp [AsyncResult.GetStateE, h]

theorem GetStateE_fetched (b : Backend) (r : AsyncResult)
    (h : r.taskState.IsCompleted = false) :
    (r.GetStateE b).2 = [r.signatureUUID] := by
  unfold AsyncResult.GetStateE
  rw [h]
  simp only [Bool.false_eq_true, if_false]
  split <;> rfl

theorem Touch_result (rv : String → GoValue → Except String GoValue)
    (b : Backend) (r : AsyncResult) :
    (AsyncResult.Touch rv (some b) r).result = (r.GetStateE b).1 := by
  simp only [AsyncResult.Touch]
  split
  · split <;> rfl
  · split <;> rfl

theorem Touch_fetched (rv : String → GoValue → Except String GoValue)
    (b : Backend) (r : AsyncResult) :
    (AsyncResult.Touch rv (some b) r).fetched = (r.GetStateE b).2 := by
  simp only [AsyncResult.Touch]
  split
  · split <;> rfl
  · split <;> rfl

theorem Touch_purged (rv : String → GoValue → Except String GoValue)
    (b : Backend) (r : AsyncResult) :
    (AsyncResult.Touch rv (some b) r).purged =
      if b.isAMQP && (r.GetStateE b).1.taskState.IsCompleted then
        [(r.GetStateE b).1.taskState.taskUUID]
      else [] := by
  simp only [AsyncResult.Touch]
  split
  · split <;> rfl
  · split <;> rfl

theorem Touch_ret_success (rv : String → GoValue → Except String GoValue)
    (b : Backend) (r : AsyncResult)
    (h : (r.GetStateE b).1.taskState.IsSuccess = true) :
    (AsyncResult.Touch rv (some b) r).ret =
      (match decodeResults rv (r.GetStateE b).1.taskState.results with
       | Except.error e => (none, some e)
       | Except.ok vs => (some vs, none)) := by
  simp only [AsyncResult.Touch, h, if_true]
  split <;> simp_all

theorem Touch_ret_failure (rv : String → GoValue → Except String GoValue)
    (b : Backend) (r : AsyncResult)
    (hns : (r.GetStateE b).1.taskState.IsSuccess = false)
    (hf : (r.GetStateE b).1.taskState.IsFailure = true) :
    (AsyncResult.Touch rv (some b) r).ret =
      (none, some (r.GetStateE b).1.taskState.error) := by
  simp only [AsyncResult.Touch, hns, hf]
  simp

theorem Touch_ret_pending (rv : String → GoValue → Except String GoValue)
    (b : Backend) (r : AsyncResult)
    (hns : (r.GetStateE b).1.taskState.IsSuccess = false)
    (hnf : (r.GetStateE b).1.taskState.IsFailure = false) :
    (AsyncResult.Touch rv (some b) r).ret = (none, none) := by
  simp only [AsyncResult.Touch, hns, hnf]
  simp

theorem notCompleted_notSuccess_notFailure (t : TaskState)
    (h : t.IsCompleted = false) : t.IsSuccess = false ∧ t.IsFailure = false := by
  simp [TaskState.IsCompleted, TaskState.IsSuccess, TaskState.IsFailure] at h ⊢
  exact h

theorem AdjustRoutingKey_eta (cnf : Config) (s : Signature) :
    (AdjustRoutingKey cnf s).eta = s.eta := by
  unfold AdjustRoutingKey
  split <;> rfl

theorem delay_confirmAwaited (cnf : Config) (marshal : Signature → String)
    (tr : Transport) (signature : Signature) (delayMs : Int) :
    (AMQPBroker.delay cnf marshal tr signature delayMs).confirmAwaited = false := by
  unfold AMQPBroker.delay
  split
  · rfl
  · split
    · rfl
    · split <;> rfl

/-! ## Theorems settling the claims -/

/-- Counterexample to C1 as stated: with the AMQP backend and a task whose
fetched state is FAILURE, `Touch` purges the state although the state is not
successful, so "purges iff terminal and successful" fails — the code's purge
condition is `IsCompleted()`, i.e. terminal whether successful or failed. -/
theorem claim1_cex :
    (AsyncResult.Touch (fun _ v => Except.ok v)
      (some ⟨true, fun u => Except.ok ⟨u, TState.failure, [], "boom"⟩⟩)
      ⟨"u1", ⟨"", TState.pending, [], ""⟩⟩).purged = ["u1"] ∧
    (AsyncResult.Touch (fun _ v => Except.ok v)
      (some ⟨true, fun u => Except.ok ⟨u, TState.failure, [], "boom"⟩⟩)
      ⟨"u1", ⟨"", TState.pending, [], ""⟩⟩).result.taskState.IsSuccess = false :=
  ⟨rfl, rfl⟩

/-- C1 (amended): for every `AsyncResult`, `Touch` fetches the latest state
from the backend unless the cached state is already terminal, and purges the
task's state if and only if the backend is the AMQP backend and the state is
terminal (successful **or** failed); `Touch` returns `(nil, nil)` while the
state is non-terminal, `(the decoded result values, nil)` when the state is
SUCCESS, and `(nil, an error carrying TaskState.Error)` when the state is
FAILURE. -/
theorem claim1_amended (rv : String → GoValue → Except String GoValue)
    (b : Backend) (r : AsyncResult) :
    (r.taskState.IsCompleted = true →
      (AsyncResult.Touch rv (some b) r).fetched = [] ∧
      (AsyncResult.Touch rv (some b) r).result = r) ∧
    (r.taskState.IsCompleted = false →
      (AsyncResult.Touch rv (some b) r).fetched = [r.signatureUUID]) ∧
    ((AsyncResult.Touch rv (some b) r).purged ≠ [] ↔
      (b.isAMQP = true ∧
       (AsyncResult.Touch rv (some b) r).result.taskState.IsCompleted = true)) ∧
    ((AsyncResult.Touch rv (some b) r).result.taskState.IsCompleted = false →
      (AsyncResult.Touch rv (some b) r).ret = (none, none)) ∧
    ((AsyncResult.Touch rv (some b) r).result.taskState.IsSuccess = true →
      ∀ vs, decodeResults rv (AsyncResult.Touch rv (some b) r).result.taskState.results =
        Except.ok vs →
      (AsyncResult.Touch rv (some b) r).ret = (some vs, none)) ∧
    ((AsyncResult.Touch rv (some b) r).result.taskState.IsFailure = true →
      (AsyncResult.Touch rv (some b) r).ret =
        (none, some (AsyncResult.Touch rv (some b) r).result.taskState.error)) := by
  refine ⟨?_, ?_, ?_, ?_, ?_, ?_⟩
  · intro h
    rw [Touch_fetched, Touch_result, GetStateE_completed b r h]
    exact ⟨rfl, rfl⟩
  · intro h
    rw [Touch_fetched, GetStateE_fetched b r h]
  · rw [Touch_purged, Touch_result]
    constructor
    · intro h
      by_contra hc
      rw [not_and_or] at hc
      rcases hc with hc | hc
      · have hb : b.isAMQP = false := by
          cases hb2 : b.isAMQP
          · rfl
          · exact absurd hb2 hc
        simp [hb] at h
      · have hb : (r.GetStateE b).1.taskState.IsCompleted = false := by
          cases hb2 : (r.GetStateE b).1.taskState.IsCompleted
          · rfl
          · exact absurd hb2 hc
        simp [hb] at h
    · intro ⟨h1, h2⟩
      simp [h1, h2]
  · intro h
    rw [Touch_result] at h
    have hp := notCompleted_notSuccess_notFailure _ h
    exact Touch_ret_pending rv b r hp.1 hp.2
  · intro h vs hdec
    rw [Touch_result] at h hdec
    rw [Touch_ret_success rv b r h, hdec]
  · intro h
    rw [Touch_result] at h
    rw [Touch_result]
    rcases hs : (r.GetStateE b).1.taskState.IsSuccess with _ | _
    · exact Touch_ret_failure rv b r hs h
    · exfalso
      revert hs h
      simp [TaskState.IsSuccess, TaskState.IsFailure]
      intro hs hf
      rw [hs] at hf
      exact absurd hf (by decide)

/-- Witness for C1 (amended): a non-AMQP backend returning a SUCCESS state
with one decodable result; `Touch` fetches, purges nothing, and returns the
decoded values with a nil error. -/
theorem claim1_witness :
    (AsyncResult.Touch (fun _ v => Except.ok v)
      (some ⟨false, fun u => Except.ok ⟨u, TState.success, [⟨"int64", GoValue.num 3⟩], ""⟩⟩)
      ⟨"u2", ⟨"", TState.pending, [], ""⟩⟩).fetched = ["u2"] ∧
    (AsyncResult.Touch (fun _ v => Except.ok v)
      (some ⟨false, fun u => Except.ok ⟨u, TState.success, [⟨"int64", GoValue.num 3⟩], ""⟩⟩)
      ⟨"u2", ⟨"", TState.pending, [], ""⟩⟩).ret = (some [GoValue.num 3], none) :=
  ⟨(claim1_amended (fun _ v => Except.ok v)
      ⟨false, fun u => Except.ok ⟨u, TState.success, [⟨"int64", GoValue.num 3⟩], ""⟩⟩
      ⟨"u2", ⟨"", TState.pending, [], ""⟩⟩).2.1 rfl,
   (claim1_amended (fun _ v => Except.ok v)
      ⟨false, fun u => Except.ok ⟨u, TState.success, [⟨"int64", GoValue.num 3⟩], ""⟩⟩
      ⟨"u2", ⟨"", TState.pending, [], ""⟩⟩).2.2.2.2.1 rfl [GoValue.num 3] rfl⟩

/-- Counterexample to C3 as stated: on the delay path (ETA 2 ms in the
future, transport accepting connect and publish), `Publish` returns a nil
error although no value was ever received from a confirms channel — the
delay path never awaits a publish confirmation. -/
theorem claim3_cex :
    (AMQPBroker.Publish ⟨"exch", "direct", "dq", "bk"⟩ (fun s => s.uuid)
      ⟨none, none, true, 7⟩ 0 ⟨"u1", "add", "rk", some 2000000⟩).ret = none ∧
    (AMQPBroker.Publish ⟨"exch", "direct", "dq", "bk"⟩ (fun s => s.uuid)
      ⟨none, none, true, 7⟩ 0 ⟨"u1", "add", "rk", some 2000000⟩).confirmAwaited
      = false :=
  ⟨rfl, rfl⟩

/-- C3 (amended): on the immediate path `Publish` returns nil only after a
publish confirmation has been received from the transport, and a NACKed
confirm surfaces as the "Failed delivery of delivery tag" error carrying the
delivery tag; the delay path taken when the ETA is in the future awaits no
confirmation at all (and returns nil as soon as the transport accepts the
publish, as the counterexample shows). -/
theorem claim3_amended (cnf : Config) (marshal : Signature → String)
    (tr : Transport) (now : Int) (signature : Signature) :
    (((AMQPBroker.publishNow cnf marshal tr signature).ret = none →
        (AMQPBroker.publishNow cnf marshal tr signature).confirmAwaited = true) ∧
     (tr.connectErr = none → tr.publishErr = none → tr.confAck = false →
        (AMQPBroker.publishNow cnf marshal tr signature).ret =
          some ("Failed delivery of delivery tag: " ++ toString tr.confDeliveryTag) ∧
        (AMQPBroker.publishNow cnf marshal tr signature).confirmAwaited = true)) ∧
    (signature.eta = none →
      AMQPBroker.Publish cnf marshal tr now signature =
        AMQPBroker.publishNow cnf marshal tr (AdjustRoutingKey cnf signature)) ∧
    (∀ eta, signature.eta = some eta → eta ≤ now →
      AMQPBroker.Publish cnf marshal tr now signature =
        AMQPBroker.publishNow cnf marshal tr (AdjustRoutingKey cnf signature)) ∧
    (∀ eta, signature.eta = some eta → now < eta →
      (AMQPBroker.Publish cnf marshal tr now signature).confirmAwaited = false) := by
  obtain ⟨ce, pe, ca, tag⟩ := tr
  refine ⟨⟨?_, ?_⟩, ?_, ?_, ?_⟩
  · cases ce <;> cases pe <;> cases ca <;> simp [AMQPBroker.publishNow]
  · intro hce hpe hca
    subst hce; subst hpe; subst hca
    simp [AMQPBroker.publishNow]
  · intro heta
    have hadj := AdjustRoutingKey_eta cnf signature
    rw [heta] at hadj
    simp only [AMQPBroker.Publish, hadj]
  · intro eta heta hle
    have hadj := AdjustRoutingKey_eta cnf signature
    rw [heta] at hadj
    simp only [AMQPBroker.Publish, hadj]
    rw [if_neg (not_lt.mpr hle)]
  · intro eta heta hlt
    have hadj := AdjustRoutingKey_eta cnf signature
    rw [heta] at hadj
    simp only [AMQPBroker.Publish, hadj]
    rw [if_pos hlt]
    exact delay_confirmAwaited _ _ _ _ _

/-- Witness for C3 (amended): a NACKed confirm on the immediate path yields
the tag-carrying error with the confirmation awaited; a past-ETA signature
takes the immediate path; a future-ETA signature awaits no confirmation. -/
theorem claim3_witness :
    ((AMQPBroker.publishNow ⟨"exch", "direct", "dq", "bk"⟩ (fun s => s.uuid)
        ⟨none, none, false, 7⟩ ⟨"u1", "add", "rk", none⟩).ret =
      some ("Failed delivery of delivery tag: " ++ toString (7 : Nat)) ∧
     (AMQPBroker.publishNow ⟨"exch", "direct", "dq", "bk"⟩ (fun s => s.uuid)
        ⟨none, none, false, 7⟩ ⟨"u1", "add", "rk", none⟩).confirmAwaited = true) ∧
    AMQPBroker.Publish ⟨"exch", "direct", "dq", "bk"⟩ (fun s => s.uuid)
        ⟨none, none, false, 7⟩ 5 ⟨"u1", "add", "rk", some 3⟩ =
      AMQPBroker.publishNow ⟨"exch", "direct", "dq", "bk"⟩ (fun s => s.uuid)
        ⟨none, none, false, 7⟩
        (AdjustRoutingKey ⟨"exch", "direct", "dq", "bk"⟩ ⟨"u1", "add", "rk", some 3⟩) ∧
    (AMQPBroker.Publish ⟨"exch", "direct", "dq", "bk"⟩ (fun s => s.uuid)
        ⟨none, none, true, 7⟩ 0 ⟨"u1", "add", "rk", some 2000000⟩).confirmAwaited
      = false :=
  ⟨(claim3_amended _ _ _ 5 _).1.2 rfl rfl rfl,
   (claim3_amended _ _ _ 5 _).2.2.1 3 rfl (by decide),
   (claim3_amended _ _ _ 0 _).2.2.2 2000000 rfl (by decide)⟩

/-- C2: for every delivery handled by the AMQP broker's `consumeOne`, an
empty body is NACKed without requeue and an error is signalled upward; a
body that fails to decode as a Signature is NACKed without requeue; a
decoded signature whose Name is not registered on this worker is NACKed
with requeue, with no `Process` call (hence no state written by this
worker) and a nil error; in every other case the delivery is ACKed (the
only action taken) and then `processor.Process(signature)` is called and
its error returned. -/
theorem claim2_consumeOne (unmarshal : String → Except String Signature)
    (isTaskRegistered : String → Bool) (processRet : Signature → Option String)
    (body : String) :
    (body.length = 0 →
      consumeOne unmarshal isTaskRegistered processRet body =
        ⟨[AckAction.nack false false], none, some "Received an empty message"⟩) ∧
    (∀ e, body.length ≠ 0 → unmarshal body = Except.error e →
      consumeOne unmarshal isTaskRegistered processRet body =
        ⟨[AckAction.nack false false], none, some e⟩) ∧
    (∀ signature, body.length ≠ 0 → unmarshal body = Except.ok signature →
      isTaskRegistered signature.name = false →
      consumeOne unmarshal isTaskRegistered processRet body =
        ⟨[AckAction.nack false true], none, none⟩) ∧
    (∀ signature, body.length ≠ 0 → unmarshal body = Except.ok signature →
      isTaskRegistered signature.name = true →
      consumeOne unmarshal isTaskRegistered processRet body =
        ⟨[AckAction.ack false], some signature, processRet signature⟩) := by
  refine ⟨?_, ?_, ?_, ?_⟩ <;> intros <;> simp_all [consumeOne]

/-- Witness for C2: each of the four cases evaluated at a concrete
delivery. -/
theorem claim2_witness :
    consumeOne (fun _ => Except.error "bad json") (fun _ => true)
        (fun _ => none) "" =
      ⟨[AckAction.nack false false], none, some "Received an empty message"⟩ ∧
    consumeOne (fun _ => Except.error "bad json") (fun _ => true)
        (fun _ => none) "x" =
      ⟨[AckAction.nack false false], none, some "bad json"⟩ ∧
    consumeOne (fun _ => Except.ok ⟨"u1", "add", "rk", none⟩) (fun _ => false)
        (fun _ => none) "x" =
      ⟨[AckAction.nack false true], none, none⟩ ∧
    consumeOne (fun _ => Except.ok ⟨"u1", "add", "rk", none⟩) (fun _ => true)
        (fun _ => some "handler err") "x" =
      ⟨[AckAction.ack false], some ⟨"u1", "add", "rk", none⟩, some "handler err"⟩ :=
  ⟨(claim2_consumeOne _ _ _ _).1 rfl,
   (claim2_consumeOne _ _ _ _).2.1 "bad json" (by decide) rfl,
   (claim2_consumeOne _ _ _ _).2.2.1 ⟨"u1", "add", "rk", none⟩ (by decide) rfl rfl,
   (claim2_consumeOne _ _ _ _).2.2.2 ⟨"u1", "add", "rk", none⟩ (by decide) rfl rfl⟩

/-- C4: for every signature delayed by `Δ` ms with `Δ > 0` (and a transport
that accepts the connect and the publish), the AMQP broker declares a queue
named by the signature's UUID with dead-letter exchange the configured
exchange, dead-letter routing key the configured binding key,
`x-message-ttl = Δ` and `x-expires = Δ + 3000`, and publishes the serialized
signature to the configured exchange with the queue's own name as routing
key; for every `Δ ≤ 0`, `delay` returns an error and publishes nothing. -/
theorem claim4_delay (cnf : Config) (marshal : Signature → String)
    (tr : Transport) (signature : Signature) (delayMs : Int) :
    (0 < delayMs → tr.connectErr = none → tr.publishErr = none →
      AMQPBroker.delay cnf marshal tr signature delayMs =
        ⟨[⟨signature.uuid, cnf.exchange, cnf.bindingKey, delayMs, delayMs + 3000⟩],
         [⟨cnf.exchange, signature.uuid, marshal signature⟩], false, none⟩) ∧
    (delayMs ≤ 0 →
      AMQPBroker.delay cnf marshal tr signature delayMs =
        ⟨[], [], false, some "Cannot delay task by 0ms"⟩) := by
  constructor
  · intro hpos hconn hpub
    simp [AMQPBroker.delay, hconn, hpub, not_le.mpr hpos]
  · intro hle
    simp [AMQPBroker.delay, hle]

/-- Witness for C4: `delay` evaluated at `Δ = 250` and `Δ = 0`. -/
theorem claim4_witness :
    AMQPBroker.delay ⟨"exch", "direct", "dq", "bk"⟩ (fun s => s.uuid)
        ⟨none, none, true, 7⟩ ⟨"u1", "add", "rk", none⟩ 250 =
      ⟨[⟨"u1", "exch", "bk", 250, 3250⟩], [⟨"exch", "u1", "u1"⟩], false, none⟩ ∧
    AMQPBroker.delay ⟨"exch", "direct", "dq", "bk"⟩ (fun s => s.uuid)
        ⟨none, none, true, 7⟩ ⟨"u1", "add", "rk", none⟩ 0 =
      ⟨[], [], false, some "Cannot delay task by 0ms"⟩ :=
  ⟨(claim4_delay _ _ _ _ 250).1 (by decide) rfl rfl,
   (claim4_delay _ _ _ _ 0).2 (by decide)⟩

/-- C10: for every signature whose ETA is in the future by strictly less
than one millisecond at publish time, `AMQPBroker.Publish` computes a delay
of 0 ms (integer truncation of the sub-millisecond remainder), takes the
delay path, and returns the "Cannot delay task by 0ms" error having
published nothing. -/
theorem claim10_subMillisecondEta (cnf : Config) (marshal : Signature → String)
    (tr : Transport) (now eta : Int) (signature : Signature)
    (heta : signature.eta = some eta) (hfut : now < eta)
    (hsub : eta - now < 1000000) :
    AMQPBroker.Publish cnf marshal tr now signature =
      ⟨[], [], false, some "Cannot delay task by 0ms"⟩ := by
  have hadj : (AdjustRoutingKey cnf signature).eta = some eta := by
    simp [AdjustRoutingKey]
    split <;> simp [heta]
  have hdiv : (eta - now) / 1000000 = 0 :=
    Int.ediv_eq_zero_of_lt (by omega) hsub
  simp only [AMQPBroker.Publish, hadj, hfut, if_pos, hdiv]
  simp [AMQPBroker.delay]

/-- Witness for C10: an ETA 999 999 ns (just under 1 ms) in the future. -/
theorem claim10_witness :
    AMQPBroker.Publish ⟨"exch", "direct", "dq", "bk"⟩ (fun s => s.uuid)
        ⟨none, none, true, 7⟩ 0 ⟨"u1", "add", "rk", some 999999⟩ =
      ⟨[], [], false, some "Cannot delay task by 0ms"⟩ :=
  claim10_subMillisecondEta _ _ _ 0 999999 _ rfl (by decide) (by decide)

/-- C7: in `ChainAsyncResult.GetWithTimeout`, when `Touch` on a chain member
returns a non-nil error, the function returns the previously recorded `err`
variable (which may be nil — and is nil both on entry and after every
completed iteration) rather than the current iteration's error `errcur`; in
particular, through the public entry the caller observes `(nil, nil)`. -/
theorem claim7_chainGWT_staleErr (rv : String → GoValue → Except String GoValue)
    (b : Option Backend) (members members' : List AsyncResult)
    (errVar : Option String) (e : String) (k : Nat)
    (h : touchAll rv b members = (members', some e)) :
    chainGWTLoop rv b members errVar (k + 1) = (none, errVar) ∧
    (∀ c : ChainAsyncResult, c.asyncResults = members → members ≠ [] →
      ∀ bk : Backend, b = some bk →
      ChainAsyncResult.GetWithTimeout rv b c (k + 1) = some (none, none)) := by
  have hloop : ∀ ev : Option String,
      chainGWTLoop rv b members ev (k + 1) = (none, ev) := by
    intro ev
    simp only [chainGWTLoop, h]
  refine ⟨hloop errVar, ?_⟩
  intro c hc hne bk hb
  subst hb
  rw [ChainAsyncResult.GetWithTimeout, hc]
  rw [if_neg (by simpa [List.isEmpty_iff] using hne)]
  rw [hloop none]

/-- Witness for C7: a one-member chain whose member's `Touch` fails with
"boom"; `GetWithTimeout` returns `(nil, nil)`, not the member's error. -/
theorem claim7_witness :
    touchAll (fun _ v => Except.ok v)
        (some ⟨false, fun u => Except.ok ⟨u, TState.failure, [], "boom"⟩⟩)
        [⟨"u1", ⟨"", TState.pending, [], ""⟩⟩] =
      ([⟨"u1", ⟨"u1", TState.failure, [], "boom"⟩⟩], some "boom") ∧
    ChainAsyncResult.GetWithTimeout (fun _ v => Except.ok v)
        (some ⟨false, fun u => Except.ok ⟨u, TState.failure, [], "boom"⟩⟩)
        ⟨[⟨"u1", ⟨"", TState.pending, [], ""⟩⟩]⟩ 1 = some (none, none) :=
  ⟨rfl,
   (claim7_chainGWT_staleErr (fun _ v => Except.ok v)
      (some ⟨false, fun u => Except.ok ⟨u, TState.failure, [], "boom"⟩⟩)
      [⟨"u1", ⟨"", TState.pending, [], ""⟩⟩]
      [⟨"u1", ⟨"u1", TState.failure, [], "boom"⟩⟩] none "boom" 0 rfl).2
     ⟨[⟨"u1", ⟨"", TState.pending, [], ""⟩⟩]⟩ rfl (by simp)
     ⟨false, fun u => Except.ok ⟨u, TState.failure, [], "boom"⟩⟩ rfl⟩

/-- C9: in `ChordAsyncResult.GetWithTimeout`, a non-nil error from the chord
callback's `Touch` makes the function return `(nil, nil)`; a non-nil error
from a group member's `Touch` makes it return `(nil, err)` where `err` is the
loop's `err` variable, never assigned from that member's error — and since
the entry passes nil and every continuing iteration re-assigns nil, the only
non-nil error a caller can ever observe is "Timeout reached"; in contrast,
`ChordAsyncResult.Get` returns the group member's error. -/
theorem claim9_chordGWT_errors (rv : String → GoValue → Except String GoValue)
    (bk : Backend) :
    (∀ (group group' : List AsyncResult) (cb : AsyncResult)
        (errVar : Option String) (e : String) (k : Nat),
      touchAll rv (some bk) group = (group', some e) →
      chordGWTLoop rv (some bk) group cb errVar (k + 1) = (none, errVar)) ∧
    (∀ (group group' : List AsyncResult) (cb : AsyncResult)
        (errVar : Option String) (e : String) (k : Nat),
      touchAll rv (some bk) group = (group', none) →
      (cb.Touch rv (some bk)).ret.2 = some e →
      chordGWTLoop rv (some bk) group cb errVar (k + 1) = (none, none)) ∧
    (∀ (group : List AsyncResult) (cb : AsyncResult) (k : Nat) (msg : String),
      (chordGWTLoop rv (some bk) group cb none k).2 = some msg →
      msg = "Timeout reached") ∧
    (∀ (c : ChordAsyncResult) (fuel : Nat) (e : String),
      chordGroupAux rv (some bk) fuel c.groupAsyncResults = some (some e) →
      ChordAsyncResult.Get rv (some bk) fuel c = some (none, some e)) := by
  refine ⟨?_, ?_, ?_, ?_⟩
  · intro group group' cb errVar e k h
    simp only [chordGWTLoop, h]
  · intro group group' cb errVar e k h hcb
    rcases hret : (cb.Touch rv (some bk)).ret with ⟨o1, o2⟩
    rw [hret] at hcb
    subst hcb
    simp only [chordGWTLoop, h, hret]
  · intro group cb k
    induction k generalizing group cb with
    | zero =>
      intro msg h
      simp only [chordGWTLoop] at h
      exact (Option.some_inj.mp h).symm
    | succ k ih =>
      intro msg h
      simp only [chordGWTLoop] at h
      rcases htch : touchAll rv (some bk) group with ⟨group', e⟩
      rw [htch] at h
      cases e with
      | some e => simp at h
      | none =>
        rcases hret : (cb.Touch rv (some bk)).ret with ⟨o1, o2⟩
        rw [hret] at h
        cases o2 with
        | some e2 => simp at h
        | none =>
          cases o1 with
          | some vs => simp at h
          | none => exact ih group' (cb.Touch rv (some bk)).result msg h
  · intro c fuel e h
    simp only [ChordAsyncResult.Get, h]

/-- Witness for C9: a chord with one failing group member; `GetWithTimeout`
returns `(nil, nil)` while `Get` surfaces the member's "boom" error. -/
theorem claim9_witness :
    ChordAsyncResult.GetWithTimeout (fun _ v => Except.ok v)
        (some ⟨false, fun u => Except.ok ⟨u, TState.failure, [], "boom"⟩⟩)
        ⟨[⟨"u1", ⟨"", TState.pending, [], ""⟩⟩], ⟨"cb", ⟨"", TState.pending, [], ""⟩⟩⟩ 1 =
      some (none, none) ∧
    ChordAsyncResult.Get (fun _ v => Except.ok v)
        (some ⟨false, fun u => Except.ok ⟨u, TState.failure, [], "boom"⟩⟩) 1
        ⟨[⟨"u1", ⟨"", TState.pending, [], ""⟩⟩], ⟨"cb", ⟨"", TState.pending, [], ""⟩⟩⟩ =
      some (none, some "boom") := by
  constructor
  · have h := (claim9_chordGWT_errors (fun _ v => Except.ok v)
      ⟨false, fun u => Except.ok ⟨u, TState.failure, [], "boom"⟩⟩).1
      [⟨"u1", ⟨"", TState.pending, [], ""⟩⟩]
      [⟨"u1", ⟨"u1", TState.failure, [], "boom"⟩⟩]
      ⟨"cb", ⟨"", TState.pending, [], ""⟩⟩ none "boom" 0 rfl
    rw [ChordAsyncResult.GetWithTimeout]
    rw [show (⟨[⟨"u1", ⟨"", TState.pending, [], ""⟩⟩],
      ⟨"cb", ⟨"", TState.pending, [], ""⟩⟩⟩ : ChordAsyncResult).groupAsyncResults =
      [⟨"u1", ⟨"", TState.pending, [], ""⟩⟩] from rfl]
    rw [h]
  · exact (claim9_chordGWT_errors (fun _ v => Except.ok v)
      ⟨false, fun u => Except.ok ⟨u, TState.failure, [], "boom"⟩⟩).2.2.2
      (⟨[⟨"u1", ⟨"", TState.pending, [], ""⟩⟩],
        ⟨"cb", ⟨"", TState.pending, [], ""⟩⟩⟩ : ChordAsyncResult)
      1 "boom" rfl

theorem Get_step_pending (rv : String → GoValue → Except String GoValue)
    (b : Option Backend) (r : AsyncResult) (n : Nat)
    (h : (r.Touch rv b).ret = (none, none)) :
    AsyncResult.Get rv b (n + 1) r = AsyncResult.Get rv b n (r.Touch rv b).result := by
  simp only [AsyncResult.Get, h]

theorem Get_step_done (rv : String → GoValue → Except String GoValue)
    (b : Option Backend) (r : AsyncResult) (n : Nat)
    (h : (r.Touch rv b).ret ≠ (none, none)) :
    AsyncResult.Get rv b (n + 1) r =
      some ((r.Touch rv b).result, (r.Touch rv b).ret) := by
  rcases hret : (r.Touch rv b).ret with ⟨o1, o2⟩
  rw [hret] at h
  cases o1 <;> cases o2 <;> simp_all [AsyncResult.Get, hret]

theorem getWT_agree (rv : String → GoValue → Except String GoValue)
    (b : Option Backend) :
    ∀ (n : Nat) (r r' : AsyncResult) (out : Option (List GoValue) × Option String)
      (k : Nat), AsyncResult.Get rv b n r = some (r', out) → n ≤ k →
      AsyncResult.GetWithTimeout rv b k r = (r', out) := by
  intro n
  induction n with
  | zero =>
    intro r r' out k h _
    simp [AsyncResult.Get] at h
  | succ n ih =>
    intro r r' out k h hk
    cases k with
    | zero => omega
    | succ k =>
      rcases hret : (r.Touch rv b).ret with ⟨o1, o2⟩
      simp only [AsyncResult.Get, hret] at h
      simp only [AsyncResult.GetWithTimeout, hret]
      cases o1 with
      | none =>
        cases o2 with
        | none => exact ih _ _ _ _ h (by omega)
        | some e2 => simp_all
      | some vs =>
        cases o2 <;> simp_all

theorem getWT_timeout (rv : String → GoValue → Except String GoValue)
    (b : Option Backend) :
    ∀ (n : Nat) (r : AsyncResult), AsyncResult.Get rv b n r = none →
      (AsyncResult.GetWithTimeout rv b n r).2 = (none, some "Timeout reached") := by
  intro n
  induction n with
  | zero =>
    intro r _
    simp [AsyncResult.GetWithTimeout]
  | succ n ih =>
    intro r h
    rcases hret : (r.Touch rv b).ret with ⟨o1, o2⟩
    simp only [AsyncResult.Get, hret] at h
    simp only [AsyncResult.GetWithTimeout, hret]
    cases o1 with
    | none =>
      cases o2 with
      | none => exact ih _ h
      | some e2 => simp_all
    | some vs =>
      cases o2 <;> simp_all

/-- C5: `Get(sleep)` repeatedly calls `Touch`, sleeping after each
`(nil, nil)` outcome, and returns `Touch`'s result as soon as it is not
`(nil, nil)`; `GetWithTimeout(timeout, sleep)` behaves identically — it
returns whatever `Get` returns whenever `Get` reaches a terminal outcome
within the allotted polls — except that once the timeout elapses (modelled
as the polls being exhausted) it returns `(nil, "Timeout reached")`. -/
theorem claim5_get_getWithTimeout (rv : String → GoValue → Except String GoValue)
    (b : Option Backend) :
    (∀ (r : AsyncResult) (n : Nat), (r.Touch rv b).ret = (none, none) →
      AsyncResult.Get rv b (n + 1) r = AsyncResult.Get rv b n (r.Touch rv b).result) ∧
    (∀ (r : AsyncResult) (n : Nat), (r.Touch rv b).ret ≠ (none, none) →
      AsyncResult.Get rv b (n + 1) r =
        some ((r.Touch rv b).result, (r.Touch rv b).ret)) ∧
    (∀ r : AsyncResult, AsyncResult.GetWithTimeout rv b 0 r =
      (r, (none, some "Timeout reached"))) ∧
    (∀ (n : Nat) (r r' : AsyncResult) (out : Option (List GoValue) × Option String)
      (k : Nat), AsyncResult.Get rv b n r = some (r', out) → n ≤ k →
      AsyncResult.GetWithTimeout rv b k r = (r', out)) ∧
    (∀ (n : Nat) (r : AsyncResult), AsyncResult.Get rv b n r = none →
      (AsyncResult.GetWithTimeout rv b n r).2 = (none, some "Timeout reached")) :=
  ⟨fun r n h => Get_step_pending rv b r n h,
   fun r n h => Get_step_done rv b r n h,
   fun _ => rfl,
   getWT_agree rv b,
   getWT_timeout rv b⟩

/-- Witness for C5: a backend whose task is already SUCCESS with no results
meets the terminal clauses (with 1 ≤ 3 polls), and a backend whose task
stays PENDING meets the timeout clause after 2 polls. -/
theorem claim5_witness :
    AsyncResult.GetWithTimeout (fun _ v => Except.ok v)
        (some ⟨false, fun u => Except.ok ⟨u, TState.success, [], ""⟩⟩) 3
        ⟨"u1", ⟨"", TState.pending, [], ""⟩⟩ =
      (⟨"u1", ⟨"u1", TState.success, [], ""⟩⟩, (some [], none)) ∧
    (AsyncResult.GetWithTimeout (fun _ v => Except.ok v)
        (some ⟨false, fun u => Except.ok ⟨u, TState.pending, [], ""⟩⟩) 2
        ⟨"u1", ⟨"", TState.pending, [], ""⟩⟩).2 =
      (none, some "Timeout reached") :=
  ⟨(claim5_get_getWithTimeout (fun _ v => Except.ok v)
      (some ⟨false, fun u => Except.ok ⟨u, TState.success, [], ""⟩⟩)).2.2.2.1
      1 ⟨"u1", ⟨"", TState.pending, [], ""⟩⟩
      ⟨"u1", ⟨"u1", TState.success, [], ""⟩⟩ (some [], none) 3 rfl (by decide),
   (claim5_get_getWithTimeout (fun _ v => Except.ok v)
      (some ⟨false, fun u => Except.ok ⟨u, TState.pending, [], ""⟩⟩)).2.2.2.2
      2 ⟨"u1", ⟨"", TState.pending, [], ""⟩⟩ rfl⟩

theorem chainGetAux_ok_cons (rv : String → GoValue → Except String GoValue)
    (b : Option Backend) (fuel : Nat) (y : AsyncResult) (ys : List AsyncResult)
    (acc : Option (List GoValue)) (ry : AsyncResult) (res : Option (List GoValue))
    (h : AsyncResult.Get rv b fuel y = some (ry, (res, none))) :
    chainGetAux rv b fuel (y :: ys) acc = chainGetAux rv b fuel ys res := by
  simp only [chainGetAux, h]

theorem chainGetAux_first_error (rv : String → GoValue → Except String GoValue)
    (b : Option Backend) (fuel : Nat) :
    ∀ (pre : List AsyncResult) (x : AsyncResult) (rest : List AsyncResult)
      (acc res0 : Option (List GoValue)) (e : String) (rx : AsyncResult),
      (∀ y ∈ pre, ∃ ry res, AsyncResult.Get rv b fuel y = some (ry, (res, none))) →
      AsyncResult.Get rv b fuel x = some (rx, (res0, some e)) →
      chainGetAux rv b fuel (pre ++ x :: rest) acc = some (none, some e) := by
  intro pre
  induction pre with
  | nil =>
    intro x rest acc res0 e rx _ hx
    simp only [List.nil_append, chainGetAux, hx]
  | cons y ys ih =>
    intro x rest acc res0 e rx hpre hx
    obtain ⟨ry, res, hy⟩ := hpre y (by simp)
    rw [List.cons_append, chainGetAux_ok_cons rv b fuel y _ acc ry res hy]
    exact ih x rest res res0 e rx (fun z hz => hpre z (by simp [hz])) hx

theorem chainGetAux_all_ok (rv : String → GoValue → Except String GoValue)
    (b : Option Backend) (fuel : Nat) :
    ∀ (pre : List AsyncResult) (x : AsyncResult) (acc : Option (List GoValue))
      (rx : AsyncResult) (vs : Option (List GoValue)),
      (∀ y ∈ pre, ∃ ry res, AsyncResult.Get rv b fuel y = some (ry, (res, none))) →
      AsyncResult.Get rv b fuel x = some (rx, (vs, none)) →
      chainGetAux rv b fuel (pre ++ [x]) acc = some (vs, none) := by
  intro pre
  induction pre with
  | nil =>
    intro x acc rx vs _ hx
    rw [List.nil_append, chainGetAux_ok_cons rv b fuel x [] acc rx vs hx]
    rfl
  | cons y ys ih =>
    intro x acc rx vs hpre hx
    obtain ⟨ry, res, hy⟩ := hpre y (by simp)
    rw [List.cons_append, chainGetAux_ok_cons rv b fuel y _ acc ry res hy]
    exact ih x res rx vs (fun z hz => hpre z (by simp [hz])) hx

theorem chordGroupAux_ok_cons (rv : String → GoValue → Except String GoValue)
    (b : Option Backend) (fuel : Nat) (y : AsyncResult) (ys : List AsyncResult)
    (ry : AsyncResult) (res : Option (List GoValue))
    (h : AsyncResult.Get rv b fuel y = some (ry, (res, none))) :
    chordGroupAux rv b fuel (y :: ys) = chordGroupAux rv b fuel ys := by
  simp only [chordGroupAux, h]

theorem chordGroupAux_all_ok (rv : String → GoValue → Except String GoValue)
    (b : Option Backend) (fuel : Nat) :
    ∀ group : List AsyncResult,
      (∀ y ∈ group, ∃ ry res, AsyncResult.Get rv b fuel y = some (ry, (res, none))) →
      chordGroupAux rv b fuel group = some none := by
  intro group
  induction group with
  | nil => intro _; rfl
  | cons y ys ih =>
    intro hall
    obtain ⟨ry, res, hy⟩ := hall y (by simp)
    rw [chordGroupAux_ok_cons rv b fuel y ys ry res hy]
    exact ih (fun z hz => hall z (by simp [hz]))

theorem chordGroupAux_first_error (rv : String → GoValue → Except String GoValue)
    (b : Option Backend) (fuel : Nat) :
    ∀ (pre : List AsyncResult) (x : AsyncResult) (rest : List AsyncResult)
      (res0 : Option (List GoValue)) (e : String) (rx : AsyncResult),
      (∀ y ∈ pre, ∃ ry res, AsyncResult.Get rv b fuel y = some (ry, (res, none))) →
      AsyncResult.Get rv b fuel x = some (rx, (res0, some e)) →
      chordGroupAux rv b fuel (pre ++ x :: rest) = some (some e) := by
  intro pre
  induction pre with
  | nil =>
    intro x rest res0 e rx _ hx
    simp only [List.nil_append, chordGroupAux, hx]
  | cons y ys ih =>
    intro x rest res0 e rx hpre hx
    obtain ⟨ry, res, hy⟩ := hpre y (by simp)
    rw [List.cons_append, chordGroupAux_ok_cons rv b fuel y _ ry res hy]
    exact ih x rest res0 e rx (fun z hz => hpre z (by simp [hz])) hx

/-- C6: for every non-empty chain, `ChainAsyncResult.Get` awaits each member
in chain order, returns `(nil, err)` as soon as some member fails (with the
preceding members all having succeeded), and otherwise returns the last
member's results; for every chord, `ChordAsyncResult.Get` first awaits every
group member in order, returning `(nil, err)` at the first member failure,
and only after all members succeed awaits and returns the callback's
result. -/
theorem claim6_chain_chord_get (rv : String → GoValue → Except String GoValue)
    (bk : Backend) (fuel : Nat) :
    (∀ (pre : List AsyncResult) (x rx : AsyncResult) (vs : Option (List GoValue)),
      (∀ y ∈ pre, ∃ ry res,
        AsyncResult.Get rv (some bk) fuel y = some (ry, (res, none))) →
      AsyncResult.Get rv (some bk) fuel x = some (rx, (vs, none)) →
      ChainAsyncResult.Get rv (some bk) fuel ⟨pre ++ [x]⟩ = some (vs, none)) ∧
    (∀ (pre : List AsyncResult) (x : AsyncResult) (rest : List AsyncResult)
      (rx : AsyncResult) (res0 : Option (List GoValue)) (e : String),
      (∀ y ∈ pre, ∃ ry res,
        AsyncResult.Get rv (some bk) fuel y = some (ry, (res, none))) →
      AsyncResult.Get rv (some bk) fuel x = some (rx, (res0, some e)) →
      ChainAsyncResult.Get rv (some bk) fuel ⟨pre ++ x :: rest⟩ =
        some (none, some e)) ∧
    (∀ (group : List AsyncResult) (cb cbr : AsyncResult)
      (out : Option (List GoValue) × Option String),
      (∀ y ∈ group, ∃ ry res,
        AsyncResult.Get rv (some bk) fuel y = some (ry, (res, none))) →
      AsyncResult.Get rv (some bk) fuel cb = some (cbr, out) →
      ChordAsyncResult.Get rv (some bk) fuel ⟨group, cb⟩ = some out) ∧
    (∀ (pre : List AsyncResult) (x : AsyncResult) (rest : List AsyncResult)
      (cb rx : AsyncResult) (res0 : Option (List GoValue)) (e : String),
      (∀ y ∈ pre, ∃ ry res,
        AsyncResult.Get rv (some bk) fuel y = some (ry, (res, none))) →
      AsyncResult.Get rv (some bk) fuel x = some (rx, (res0, some e)) →
      ChordAsyncResult.Get rv (some bk) fuel ⟨pre ++ x :: rest, cb⟩ =
        some (none, some e)) := by
  refine ⟨?_, ?_, ?_, ?_⟩
  · intro pre x rx vs hpre hx
    rw [ChainAsyncResult.Get]
    exact chainGetAux_all_ok rv (some bk) fuel pre x none rx vs hpre hx
  · intro pre x rest rx res0 e hpre hx
    rw [ChainAsyncResult.Get]
    exact chainGetAux_first_error rv (some bk) fuel pre x rest none res0 e rx hpre hx
  · intro group cb cbr out hall hcb
    rw [ChordAsyncResult.Get]
    have hgrp := chordGroupAux_all_ok rv (some bk) fuel group hall
    rw [show (⟨group, cb⟩ : ChordAsyncResult).groupAsyncResults = group from rfl, hgrp]
    rw [show (⟨group, cb⟩ : ChordAsyncResult).chordAsyncResult = cb from rfl, hcb]
  · intro pre x rest cb rx res0 e hpre hx
    rw [ChordAsyncResult.Get]
    have hgrp :=
      chordGroupAux_first_error rv (some bk) fuel pre x rest res0 e rx hpre hx
    rw [show (⟨pre ++ x :: rest, cb⟩ : ChordAsyncResult).groupAsyncResults =
      pre ++ x :: rest from rfl, hgrp]

/-- Witness for C6: a two-member chain over a backend where "u1" succeeds
with result 1 and "u2" succeeds with result 2 returns the second member's
results; a chord whose sole group member fails returns that error. -/
theorem claim6_witness :
    ChainAsyncResult.Get (fun _ v => Except.ok v)
        (some ⟨false, fun u =>
          if u = "bad" then Except.ok ⟨u, TState.failure, [], "boom"⟩
          else Except.ok ⟨u, TState.success, [⟨"string", GoValue.str u⟩], ""⟩⟩) 1
        ⟨[⟨"u1", ⟨"", TState.pending, [], ""⟩⟩, ⟨"u2", ⟨"", TState.pending, [], ""⟩⟩]⟩ =
      some (some [GoValue.str "u2"], none) ∧
    ChordAsyncResult.Get (fun _ v => Except.ok v)
        (some ⟨false, fun u =>
          if u = "bad" then Except.ok ⟨u, TState.failure, [], "boom"⟩
          else Except.ok ⟨u, TState.success, [⟨"string", GoValue.str u⟩], ""⟩⟩) 1
        ⟨[⟨"bad", ⟨"", TState.pending, [], ""⟩⟩], ⟨"cb", ⟨"", TState.pending, [], ""⟩⟩⟩ =
      some (none, some "boom") := by
  constructor
  · exact (claim6_chain_chord_get (fun _ v => Except.ok v)
      ⟨false, fun u =>
        if u = "bad" then Except.ok ⟨u, TState.failure, [], "boom"⟩
        else Except.ok ⟨u, TState.success, [⟨"string", GoValue.str u⟩], ""⟩⟩ 1).1
      [⟨"u1", ⟨"", TState.pending, [], ""⟩⟩] ⟨"u2", ⟨"", TState.pending, [], ""⟩⟩
      ⟨"u2", ⟨"u2", TState.success, [⟨"string", GoValue.str "u2"⟩], ""⟩⟩
      (some [GoValue.str "u2"])
      (by
        intro y hy
        rw [List.mem_singleton] at hy
        subst hy
        exact ⟨⟨"u1", ⟨"u1", TState.success, [⟨"string", GoValue.str "u1"⟩], ""⟩⟩,
          some [GoValue.str "u1"], rfl⟩)
      rfl
  · exact (claim6_chain_chord_get (fun _ v => Except.ok v)
      ⟨false, fun u =>
        if u = "bad" then Except.ok ⟨u, TState.failure, [], "boom"⟩
        else Except.ok ⟨u, TState.success, [⟨"string", GoValue.str u⟩], ""⟩⟩ 1).2.2.2
      [] ⟨"bad", ⟨"", TState.pending, [], ""⟩⟩ [] ⟨"cb", ⟨"", TState.pending, [], ""⟩⟩
      ⟨"bad", ⟨"bad", TState.failure, [], "boom"⟩⟩ none "boom"
      (by intro y hy; exact absurd hy (List.not_mem_nil y))
      rfl

theorem poolSum_invariant (c : Nat) (hc : 0 < c) (s : PoolState)
    (hs : PoolReachable c s) : s.toAdd + s.pool + s.inFlight = c := by
  induction hs with
  | refl => simp [poolInit]
  | tail _ hstep ih =>
    cases hstep with
    | fill a p f hp => simp_all; omega
    | dispatchGated a p f h0 => simp_all; omega
    | dispatchFree a p f h0 => omega
    | complete a p f h0 => simp_all; omega
    | completeFree a p f h0 => omega

/-- Counterexample to C8 as stated: a consume loop started with the
configured concurrency 0 skips the token bucket entirely (`if concurrency >
0` guards both the acquire and the release), so a state with one in-flight
`Process` invocation — exceeding the configured concurrency — is reachable. -/
theorem claim8_cex :
    PoolReachable 0 ⟨0, 0, 1⟩ ∧
    ¬((⟨0, 0, 1⟩ : PoolState).inFlight ≤ 0) := by
  constructor
  · exact Relation.ReflTransGen.single (PoolStep.dispatchFree 0 0 0 rfl)
  · decide

/-- C8 (amended): for every consume loop started with a configured
concurrency strictly greater than 0, at any instant the number of
concurrently in-flight handler invocations dispatched by that consumer is at
most the configured concurrency, enforced by acquiring a token from the
size-`concurrency` token bucket before spawning each task-processing
goroutine and returning it on completion; with concurrency 0 the gate is
skipped and no bound holds. -/
theorem claim8_amended (c : Nat) (hc : 0 < c) (s : PoolState)
    (hs : PoolReachable c s) : s.inFlight ≤ c := by
  have h := poolSum_invariant c hc s hs
  omega

/-- Witness for C8 (amended): with concurrency 2, the state reached by
filling one token and dispatching one delivery has one in-flight task,
within the bound. -/
theorem claim8_witness : (⟨1, 0, 1⟩ : PoolState).inFlight ≤ 2 :=
  claim8_amended 2 (by decide) ⟨1, 0, 1⟩
    (Relation.ReflTransGen.head (PoolStep.fill 1 0 0 (by decide))
      (Relation.ReflTransGen.single (PoolStep.dispatchGated 1 0 0 (by decide))))

end Machinery
